import Mathlib

/-!
# Verification of the fits-rs FITS decoder

A shallow embedding of the fits-rs repository (src/types/mod.rs and
src/parser/mod.rs, plus the standalone number parser of tests/nom-test.rs)
together with proofs about the claims of its specification.

Modelling conventions:
* A byte slice (Rust `&[u8]`) is a `List Nat` of byte values.
* Rust `&str` is a decoded `List Char`; `std::str::from_utf8` is `utf8Decode`,
  a full UTF-8 validator/decoder following Rust (rejecting overlong forms,
  surrogates and out-of-range code points).
* nom 2 parsers return one of `Done(rest, value)`, `Error` or `Incomplete`;
  `PResult` has the same three shapes.  `Needed` sizes carried by
  `Incomplete` and `ErrorKind` payloads are dropped: no combinator in this
  code base branches on them, only on which of the three shapes it got.
* Machine integers (`i64`, `u16`, `usize`) are modelled as `Int`/`Nat`;
  the `as u16` cast in `naxis_product` and the `as usize` cast in the size
  computations are modelled exactly, with `% 65536` resp. `% 2 ^ 64`.
  Intermediate `i64` arithmetic is unbounded (no claim concerns overflow of
  the products themselves).
* A Rust panic (the `expect` in `naxis_product`) is `Option.none`, so
  `naxis_product` and `data_array_size` return `Option` values.
* The two modules in the repository snapshot come from different commits:
  parser/mod.rs still uses `PrimaryHeader` and a `Value::Raw` variant while
  types/mod.rs has `Header` and `Value::Undefined`.  We use a single
  `Header` structure and a `Value` type with the union of the variants, as
  each claim is decided against the module it cites.
-/

set_option maxHeartbeats 2000000

/-- Result of a nom 2 parser: `Done(remaining input, value)`, a recoverable
`Error`, or `Incomplete` (more input needed). -/
inductive PResult (α : Type) where
  | done (rest : List Nat) (val : α)
  | err
  | incomplete

/-- A nom 2 parser over byte slices. -/
abbrev Parser (α : Type) := List Nat → PResult α

/-- Sequencing as done by nom's `do_parse!`: `Error` and `Incomplete`
short-circuit. -/
def pbind {α β : Type} (p : Parser α) (f : α → Parser β) : Parser β := fun inp =>
  match p inp with
  | .done rest a => f a rest
  | .err => .err
  | .incomplete => .incomplete

/-- nom's `map!`. -/
def pmap {α β : Type} (p : Parser α) (f : α → β) : Parser β := fun inp =>
  match p inp with
  | .done rest a => .done rest (f a)
  | .err => .err
  | .incomplete => .incomplete

/-- nom's `map_res!`: a `Result`-returning function is modelled by an
`Option`-returning one (the error payload is discarded, exactly as `map_res!`
turns any `Err` into a parse `Error`). -/
def pmapRes {α β : Type} (p : Parser α) (f : α → Option β) : Parser β := fun inp =>
  match p inp with
  | .done rest a =>
    match f a with
    | some b => .done rest b
    | none => .err
  | .err => .err
  | .incomplete => .incomplete

/-- Split off the first `n` bytes; `none` when the input is shorter. -/
def splitTake : Nat → List Nat → Option (List Nat × List Nat)
  | 0, inp => some ([], inp)
  | _ + 1, [] => none
  | n + 1, b :: rest =>
    match splitTake n rest with
    | some (xs, r) => some (b :: xs, r)
    | none => none

/-- nom's `take!(n)`: `Done` with the first `n` bytes, `Incomplete` when the
input is shorter than `n`. -/
def pTake (n : Nat) : Parser (List Nat) := fun inp =>
  match splitTake n inp with
  | some (xs, r) => .done r xs
  | none => .incomplete

/-- Matching loop of nom's `tag!`: compare the tag byte by byte; a mismatch is
an `Error`, running out of input while the tag still has bytes is
`Incomplete`. -/
def tagGo : List Nat → List Nat → PResult Unit
  | [], rest => .done rest ()
  | _ :: _, [] => .incomplete
  | c :: t, d :: inp => if c = d then tagGo t inp else .err

/-- nom's `tag!`: on success the produced value is the tag itself. -/
def pTag (t : List Nat) : Parser (List Nat) := fun inp =>
  match tagGo t inp with
  | .done rest _ => .done rest t
  | .err => .err
  | .incomplete => .incomplete

/-- Longest matching run of bytes satisfying `f`, with the remaining input. -/
def spanBytes (f : Nat → Bool) : List Nat → List Nat × List Nat
  | [] => ([], [])
  | b :: rest =>
    if f b then
      match spanBytes f rest with
      | (m, r) => (b :: m, r)
    else ([], b :: rest)

/-- nom's `take_while!`: never fails, `Done` with the (possibly empty) run of
matching bytes; at the end of input it returns everything consumed. -/
def pTakeWhile (f : Nat → Bool) : Parser (List Nat) := fun inp =>
  match spanBytes f inp with
  | (m, r) => .done r m

/-- nom's `is_not!` for a byte set given as a predicate: `Error` when the very
first byte is in the set, otherwise `Done` with the run of bytes outside the
set (the whole input, possibly empty, when no byte of the set occurs). -/
def pIsNot (inSet : Nat → Bool) : Parser (List Nat) := fun inp =>
  match inp with
  | [] => .done [] []
  | b :: _ =>
    if inSet b then .err
    else
      match spanBytes (fun c => !inSet c) inp with
      | (m, r) => .done r m

/-- nom 2's `opt!`: `Error` becomes `Done(input, None)` consuming nothing,
but `Incomplete` propagates (as demonstrated by the ignored test in the
repository file tests/nom-opt-test.rs). -/
def pOpt {α : Type} (p : Parser α) : Parser (Option α) := fun inp =>
  match p inp with
  | .done rest a => .done rest (some a)
  | .err => .done inp none
  | .incomplete => .incomplete

/-- nom 2's `alt!`: ordered choice; a branch returning `Done` or `Incomplete`
short-circuits, only `Error` falls through to the next branch; when every
branch errors the whole alternation errors. -/
def pAlt {α : Type} : List (Parser α) → Parser α
  | [], _ => .err
  | p :: rest, inp =>
    match p inp with
    | .done r a => .done r a
    | .incomplete => .incomplete
    | .err => pAlt rest inp

/-- nom's `pair!`. -/
def pPair {α β : Type} (p : Parser α) (q : Parser β) : Parser (α × β) :=
  pbind p (fun a => pmap q (fun b => (a, b)))

/-- nom's `flat_map!(p, q)`: run `p`, feed its produced bytes to `q`, keep the
remaining input of `p` and discard whatever `q` left unconsumed. -/
def pFlatMap {α : Type} (p : Parser (List Nat)) (q : Parser α) : Parser α := fun inp =>
  match p inp with
  | .done rest o =>
    match q o with
    | .done _ a => .done rest a
    | .err => .err
    | .incomplete => .incomplete
  | .err => .err
  | .incomplete => .incomplete

/-- Loop of nom 2's `many0!`, with fuel (one unit per loop iteration; the
entry point supplies `length + 1`, enough because every iteration consumes).
Empty input ends the loop with `Done`; an inner `Error` ends it with `Done`;
an inner `Incomplete` propagates; an iteration that consumed nothing is
nom's `ErrorKind::Many0` error (our parsers only ever return suffixes of
their input, so `rest.length < inp.length` is exactly `rest != inp`). -/
def many0Go {α : Type} (p : Parser α) : Nat → List Nat → PResult (List α)
  | 0, _ => .incomplete
  | fuel + 1, inp =>
    if inp.isEmpty then .done inp []
    else
      match p inp with
      | .err => .done inp []
      | .incomplete => .incomplete
      | .done rest a =>
        if rest.length < inp.length then
          match many0Go p fuel rest with
          | .done r as => .done r (a :: as)
          | .err => .err
          | .incomplete => .incomplete
        else .err

/-- nom 2's `many0!`. -/
def many0 {α : Type} (p : Parser α) : Parser (List α) := fun inp =>
  many0Go p (inp.length + 1) inp

/-- nom's `count!`: exactly `n` repetitions; `Error` and `Incomplete` of the
inner parser propagate. -/
def pCount {α : Type} (p : Parser α) : Nat → Parser (List α)
  | 0 => fun inp => .done inp []
  | n + 1 => pbind p (fun a => pmap (pCount p n) (fun as => a :: as))

/-- nom's whitespace eater `sp` (`eat_separator!(b" \t\r\n")`), used by the
`ws!` combinator. -/
def sp : Parser (List Nat) :=
  pTakeWhile (fun b => b = 32 || b = 9 || b = 13 || b = 10)

/-- Byte predicate of nom's `is_digit`. -/
def isDigitByte (b : Nat) : Bool := 48 ≤ b && b ≤ 57

/-- Byte predicate of nom's `is_space` (space or tab). -/
def isSpaceByte (b : Nat) : Bool := b = 32 || b = 9

/-- UTF-8 decoding with the exact validation of Rust's `str::from_utf8`:
rejects stray continuation bytes, overlong encodings, surrogates and code
points above `0x10FFFF`. -/
def utf8Decode : List Nat → Option (List Char)
  | [] => some []
  | b :: rest =>
    if b < 0x80 then
      match utf8Decode rest with
      | some cs => some (Char.ofNat b :: cs)
      | none => none
    else if b < 0xC2 then none
    else if b < 0xE0 then
      match rest with
      | c :: rest2 =>
        if 0x80 ≤ c && c < 0xC0 then
          match utf8Decode rest2 with
          | some cs => some (Char.ofNat ((b - 0xC0) * 64 + (c - 0x80)) :: cs)
          | none => none
        else none
      | [] => none
    else if b < 0xF0 then
      match rest with
      | c :: d :: rest2 =>
        let lowOk : Bool :=
          if b = 0xE0 then 0xA0 ≤ c && c < 0xC0
          else if b = 0xED then 0x80 ≤ c && c < 0xA0
          else 0x80 ≤ c && c < 0xC0
        if lowOk && (0x80 ≤ d && d < 0xC0) then
          match utf8Decode rest2 with
          | some cs =>
            some (Char.ofNat ((b - 0xE0) * 4096 + (c - 0x80) * 64 + (d - 0x80)) :: cs)
          | none => none
        else none
      | _ => none
    else if b < 0xF5 then
      match rest with
      | c :: d :: e :: rest2 =>
        let lowOk : Bool :=
          if b = 0xF0 then 0x90 ≤ c && c < 0xC0
          else if b = 0xF4 then 0x80 ≤ c && c < 0x90
          else 0x80 ≤ c && c < 0xC0
        if lowOk && (0x80 ≤ d && d < 0xC0) && (0x80 ≤ e && e < 0xC0) then
          match utf8Decode rest2 with
          | some cs =>
            some (Char.ofNat
              ((b - 0xF0) * 262144 + (c - 0x80) * 4096 + (d - 0x80) * 64 + (e - 0x80)) :: cs)
          | none => none
        else none
      | _ => none
    else none

/-- Unsigned decimal value of a digit string. -/
def digitsVal (t : List Char) : Nat :=
  t.foldl (fun a c => a * 10 + (c.toNat - 48)) 0

/-- Rust's `u16::from_str`: an optional leading plus sign, one or more
decimal digits, value at most 65535. -/
def parseU16 (s : List Char) : Option Nat :=
  let t := match s with
    | '+' :: r => r
    | _ => s
  if t = [] then none
  else if t.all Char.isDigit then
    if digitsVal t < 65536 then some (digitsVal t) else none
  else none

/-- Rust's `i64::from_str`: an optional sign, one or more decimal digits,
value within the `i64` range. -/
def parseI64 (s : List Char) : Option Int :=
  let (sgn, t) : Int × List Char := match s with
    | '+' :: r => (1, r)
    | '-' :: r => (-1, r)
    | _ => (1, s)
  if t = [] then none
  else if t.all Char.isDigit then
    let v : Int := sgn * (digitsVal t : Int)
    if -(2 ^ 63) ≤ v ∧ v < 2 ^ 63 then some v else none
  else none

/-- The `White_Space` code points trimmed by Rust's `str::trim_right`. -/
def rustIsWhitespace (c : Char) : Bool :=
  c.toNat = 32 || (9 ≤ c.toNat && c.toNat ≤ 13) || c.toNat = 0x85 || c.toNat = 0xA0 ||
  c.toNat = 0x1680 || (0x2000 ≤ c.toNat && c.toNat ≤ 0x200A) || c.toNat = 0x2028 ||
  c.toNat = 0x2029 || c.toNat = 0x202F || c.toNat = 0x205F || c.toNat = 0x3000

/-- Rust's `str::trim_right` (drop trailing whitespace). -/
def trimRight (s : List Char) : List Char :=
  ((s.reverse).dropWhile rustIsWhitespace).reverse

/-- Char-by-char comparison against a candidate prefix (first argument). -/
def pfxOf : List Char → List Char → Bool
  | [], _ => true
  | _ :: _, [] => false
  | q :: ps, c :: cs => c = q && pfxOf ps cs

/-- Rust's `str::starts_with`. -/
def hasPfx (s p : List Char) : Bool := pfxOf p s

/-- The bytes of an ASCII string literal. -/
def strBytes (s : String) : List Nat := s.toList.map Char.toNat

/-- The keyword enumeration of src/types/mod.rs.  The `u16` index of the
indexed families is modelled as `Nat` (every index the code constructs or
parses is below 65536). -/
inductive Keyword where
  | AV | BITPIX | CAMPAIGN | CHANNEL | CHECKSUM | CREATOR | DATASUM | DATA_REL
  | DATE | DEC_OBJ | EBMINUSV | END | EQUINOX | EXTEND | EXTNAME | EXTVER
  | FEH | FILEVER | GCOUNT | GKCOLOR | GLAT | GLON | GMAG | GRCOLOR | HMAG
  | IMAG | INSTRUME | JKCOLOR | JMAG | KEPLERID | KEPMAG | KMAG | LOGG
  | MISSION | MODULE | NAXIS | NAXISn (n : Nat) | NEXTEND | OBJECT | OBSMODE
  | ORIGIN | OUTPUT | PARALLAX | PCOUNT | PMDEC | PMRA | PMTOTAL | PROCVER
  | RADESYS | RADIUS | RA_OBJ | RMAG | SIMPLE | TDIMn (n : Nat)
  | TDISPn (n : Nat) | TEFF | TELESCOP | TFIELDS | TFORMn (n : Nat) | TIMVERSN
  | THEAP | TMINDEX | TNULLn (n : Nat) | TSCALn (n : Nat) | TTABLEID
  | TTYPEn (n : Nat) | TUNITn (n : Nat) | TZEROn (n : Nat) | XTENSION | ZMAG
  | Unprocessed

/-- Injective numeric code for `Keyword` (used only to build decidable
equality; deriving it directly is too large for the elaborator). -/
def Keyword.code : Keyword → Nat
  | .AV => 0 | .BITPIX => 1 | .CAMPAIGN => 2 | .CHANNEL => 3 | .CHECKSUM => 4
  | .CREATOR => 5 | .DATASUM => 6 | .DATA_REL => 7 | .DATE => 8 | .DEC_OBJ => 9
  | .EBMINUSV => 10 | .END => 11 | .EQUINOX => 12 | .EXTEND => 13
  | .EXTNAME => 14 | .EXTVER => 15 | .FEH => 16 | .FILEVER => 17 | .GCOUNT => 18
  | .GKCOLOR => 19 | .GLAT => 20 | .GLON => 21 | .GMAG => 22 | .GRCOLOR => 23
  | .HMAG => 24 | .IMAG => 25 | .INSTRUME => 26 | .JKCOLOR => 27 | .JMAG => 28
  | .KEPLERID => 29 | .KEPMAG => 30 | .KMAG => 31 | .LOGG => 32 | .MISSION => 33
  | .MODULE => 34 | .NAXIS => 35 | .NAXISn n => 36 + 71 * n | .NEXTEND => 37
  | .OBJECT => 38 | .OBSMODE => 39 | .ORIGIN => 40 | .OUTPUT => 41
  | .PARALLAX => 42 | .PCOUNT => 43 | .PMDEC => 44 | .PMRA => 45
  | .PMTOTAL => 46 | .PROCVER => 47 | .RADESYS => 48 | .RADIUS => 49
  | .RA_OBJ => 50 | .RMAG => 51 | .SIMPLE => 52 | .TDIMn n => 53 + 71 * n
  | .TDISPn n => 54 + 71 * n | .TEFF => 55 | .TELESCOP => 56 | .TFIELDS => 57
  | .TFORMn n => 58 + 71 * n | .TIMVERSN => 59 | .THEAP => 60 | .TMINDEX => 61
  | .TNULLn n => 62 + 71 * n | .TSCALn n => 63 + 71 * n | .TTABLEID => 64
  | .TTYPEn n => 65 + 71 * n | .TUNITn n => 66 + 71 * n | .TZEROn n => 67 + 71 * n
  | .XTENSION => 68 | .ZMAG => 69 | .Unprocessed => 70

/-- Left inverse of `Keyword.code`. -/
def Keyword.decode (c : Nat) : Keyword :=
  let n := c / 71
  match c % 71 with
  | 0 => .AV | 1 => .BITPIX | 2 => .CAMPAIGN | 3 => .CHANNEL | 4 => .CHECKSUM
  | 5 => .CREATOR | 6 => .DATASUM | 7 => .DATA_REL | 8 => .DATE | 9 => .DEC_OBJ
  | 10 => .EBMINUSV | 11 => .END | 12 => .EQUINOX | 13 => .EXTEND
  | 14 => .EXTNAME | 15 => .EXTVER | 16 => .FEH | 17 => .FILEVER | 18 => .GCOUNT
  | 19 => .GKCOLOR | 20 => .GLAT | 21 => .GLON | 22 => .GMAG | 23 => .GRCOLOR
  | 24 => .HMAG | 25 => .IMAG | 26 => .INSTRUME | 27 => .JKCOLOR | 28 => .JMAG
  | 29 => .KEPLERID | 30 => .KEPMAG | 31 => .KMAG | 32 => .LOGG | 33 => .MISSION
  | 34 => .MODULE | 35 => .NAXIS | 36 => .NAXISn n | 37 => .NEXTEND
  | 38 => .OBJECT | 39 => .OBSMODE | 40 => .ORIGIN | 41 => .OUTPUT
  | 42 => .PARALLAX | 43 => .PCOUNT | 44 => .PMDEC | 45 => .PMRA
  | 46 => .PMTOTAL | 47 => .PROCVER | 48 => .RADESYS | 49 => .RADIUS
  | 50 => .RA_OBJ | 51 => .RMAG | 52 => .SIMPLE | 53 => .TDIMn n
  | 54 => .TDISPn n | 55 => .TEFF | 56 => .TELESCOP | 57 => .TFIELDS
  | 58 => .TFORMn n | 59 => .TIMVERSN | 60 => .THEAP | 61 => .TMINDEX
  | 62 => .TNULLn n | 63 => .TSCALn n | 64 => .TTABLEID | 65 => .TTYPEn n
  | 66 => .TUNITn n | 67 => .TZEROn n | 68 => .XTENSION | 69 => .ZMAG
  | _ => .Unprocessed

theorem Keyword.decode_code (k : Keyword) : Keyword.decode k.code = k := by
  cases k <;>
    simp [Keyword.code, Keyword.decode, Nat.add_mul_mod_self_left,
      Nat.add_mul_div_left]

instance : DecidableEq Keyword := fun a b =>
  if h : a.code = b.code then
    .isTrue (by
      have h2 := congrArg Keyword.decode h
      rwa [Keyword.decode_code, Keyword.decode_code] at h2)
  else .isFalse (fun he => h (he ▸ rfl))

/-- Errors of `Keyword::from_str`. -/
inductive ParseKeywordError where
  | UnknownKeyword
  | NotANumber
deriving DecidableEq

/-- The exact-match arms of `Keyword::from_str`, in source order. -/
def keywordVocab : List (List Char × Keyword) :=
  [("AV".toList, .AV), ("BITPIX".toList, .BITPIX), ("CAMPAIGN".toList, .CAMPAIGN),
   ("CHANNEL".toList, .CHANNEL), ("CHECKSUM".toList, .CHECKSUM),
   ("CREATOR".toList, .CREATOR), ("DATASUM".toList, .DATASUM),
   ("DATA_REL".toList, .DATA_REL), ("DATE".toList, .DATE),
   ("DEC_OBJ".toList, .DEC_OBJ), ("EBMINUSV".toList, .EBMINUSV),
   ("END".toList, .END), ("EQUINOX".toList, .EQUINOX), ("EXTEND".toList, .EXTEND),
   ("EXTNAME".toList, .EXTNAME), ("EXTVER".toList, .EXTVER), ("FEH".toList, .FEH),
   ("FILEVER".toList, .FILEVER), ("GCOUNT".toList, .GCOUNT),
   ("GKCOLOR".toList, .GKCOLOR), ("GLAT".toList, .GLAT), ("GLON".toList, .GLON),
   ("GMAG".toList, .GMAG), ("GRCOLOR".toList, .GRCOLOR), ("HMAG".toList, .HMAG),
   ("IMAG".toList, .IMAG), ("INSTRUME".toList, .INSTRUME),
   ("JKCOLOR".toList, .JKCOLOR), ("JMAG".toList, .JMAG),
   ("KEPLERID".toList, .KEPLERID), ("KEPMAG".toList, .KEPMAG),
   ("KMAG".toList, .KMAG), ("LOGG".toList, .LOGG), ("MISSION".toList, .MISSION),
   ("MODULE".toList, .MODULE), ("NAXIS".toList, .NAXIS),
   ("NEXTEND".toList, .NEXTEND), ("OBJECT".toList, .OBJECT),
   ("OBSMODE".toList, .OBSMODE), ("ORIGIN".toList, .ORIGIN),
   ("OUTPUT".toList, .OUTPUT), ("PARALLAX".toList, .PARALLAX),
   ("PCOUNT".toList, .PCOUNT), ("PMDEC".toList, .PMDEC), ("PMRA".toList, .PMRA),
   ("PMTOTAL".toList, .PMTOTAL), ("PROCVER".toList, .PROCVER),
   ("RADESYS".toList, .RADESYS), ("RADIUS".toList, .RADIUS),
   ("RA_OBJ".toList, .RA_OBJ), ("RMAG".toList, .RMAG), ("SIMPLE".toList, .SIMPLE),
   ("TEFF".toList, .TEFF), ("TELESCOP".toList, .TELESCOP),
   ("TFIELDS".toList, .TFIELDS), ("THEAP".toList, .THEAP),
   ("TIMVERSN".toList, .TIMVERSN), ("TMINDEX".toList, .TMINDEX),
   ("TTABLEID".toList, .TTABLEID), ("XTENSION".toList, .XTENSION),
   ("ZMAG".toList, .ZMAG)]

/-- First-match lookup over the exact-match arms. -/
def findKeyword : List (List Char × Keyword) → List Char → Option Keyword
  | [], _ => none
  | kv :: rest, s => if s = kv.1 then some kv.2 else findKeyword rest s

/-- One indexed-family arm of `Keyword::from_str`: `split_at(k)` the trimmed
input, parse the suffix with `u16::from_str`. -/
def idxKw (t : List Char) (k : Nat) (ctor : Nat → Keyword) :
    Except ParseKeywordError Keyword :=
  match parseU16 (t.drop k) with
  | some n => .ok (ctor n)
  | none => .error .NotANumber

/-- The nine indexed-family checks of `Keyword::from_str`, in source order
(TZERO is handled there through the `PrefixedKeyword` special-case vector,
which contains exactly that one entry). -/
def familyPfxs : List (List Char) :=
  ["TDIM".toList, "TDISP".toList, "TFORM".toList, "NAXIS".toList,
   "TNULL".toList, "TSCAL".toList, "TTYPE".toList, "TUNIT".toList,
   "TZERO".toList]

/-- `Keyword::from_str` of src/types/mod.rs: trim trailing whitespace, try
the fixed vocabulary, then the indexed-family checks in source order, and
fall back to the `Unprocessed` sentinel. -/
def Keyword.from_str (s : List Char) : Except ParseKeywordError Keyword :=
  let t := trimRight s
  match findKeyword keywordVocab t with
  | some k => .ok k
  | none =>
    if hasPfx t "TDIM".toList then idxKw t 4 .TDIMn
    else if hasPfx t "TDISP".toList then idxKw t 5 .TDISPn
    else if hasPfx t "TFORM".toList then idxKw t 5 .TFORMn
    else if hasPfx t "NAXIS".toList then idxKw t 5 .NAXISn
    else if hasPfx t "TNULL".toList then idxKw t 5 .TNULLn
    else if hasPfx t "TSCAL".toList then idxKw t 5 .TSCALn
    else if hasPfx t "TTYPE".toList then idxKw t 5 .TTYPEn
    else if hasPfx t "TUNIT".toList then idxKw t 5 .TUNITn
    else if hasPfx t "TZERO".toList then idxKw t 5 .TZEROn
    else .ok .Unprocessed

/-- The value of a keyword record.  Union of the variants of the two
snapshots in the repository: types/mod.rs has `CharacterString`, `Logical`,
`Integer`, `Real`, `Complex` and `Undefined`; the (older) value type used by
parser/mod.rs additionally has `Raw`.  The `f64` payloads are never produced
by any function modelled here. -/
inductive Value where
  | CharacterString (s : List Char)
  | Logical (b : Bool)
  | Integer (n : Int)
  | Real (x : Float)
  | Complex (x : Float × Float)
  | Undefined
  | Raw (s : List Char)

/-- A keyword record: keyword, value and optional comment. -/
structure KeywordRecord where
  keyword : Keyword
  value : Value
  comment : Option (List Char)

/-- A header: an ordered sequence of keyword records (called `PrimaryHeader`
in the snapshot parser/mod.rs was written against). -/
structure Header where
  keyword_records : List KeywordRecord

/-- Errors of the value-retrieval functions. -/
inductive ValueRetrievalError where
  | NotAnInteger
  | ValueUndefined
  | KeywordNotPresent
deriving DecidableEq

/-- `Header::has_keyword_record`: linear scan with `==`. -/
def has_keyword_record (h : Header) (k : Keyword) : Bool :=
  h.keyword_records.any (fun r => decide (r.keyword = k))

/-- `Header::is_primary`: the header contains a SIMPLE record. -/
def is_primary (h : Header) : Bool :=
  has_keyword_record h .SIMPLE

/-- `Header::value_of`: the value of the first record with the given
keyword. -/
def value_of (h : Header) (k : Keyword) : Except ValueRetrievalError Value :=
  if has_keyword_record h k then
    match h.keyword_records.find? (fun r => decide (r.keyword = k)) with
    | some r => .ok r.value
    | none => .error .KeywordNotPresent
  else .error .KeywordNotPresent

/-- `Header::integer_value_of`. -/
def integer_value_of (h : Header) (k : Keyword) : Except ValueRetrievalError Int :=
  (value_of h k).bind (fun v =>
    match v with
    | .Integer n => .ok n
    | _ => .error .NotAnInteger)

/-- The `limit` binding of `Header::naxis_product`:
`integer_value_of(NAXIS).unwrap_or(0)`. -/
def naxisLimit (h : Header) : Int :=
  ((integer_value_of h .NAXIS).toOption).getD 0

/-- The running product of the `naxis_product` loop over a list of loop
indices; `none` models the panic of the `expect` on a missing or
non-integer `NAXISn`. -/
def naxisFold (g : Nat → Option Int) (l : List Nat) (acc : Option Int) : Option Int :=
  l.foldl (fun a n => a.bind (fun p => (g n).map (fun v => p * v))) acc

/-- `Header::naxis_product`: for positive NAXIS, the product of the values of
`NAXISn((n + 1) as u16)` for `n` in `0..limit` (a panic on a missing or
non-integer `NAXISn` is `none`); otherwise 0. -/
def naxis_product (h : Header) : Option Int :=
  let limit := naxisLimit h
  if 0 < limit then
    naxisFold (fun n => (integer_value_of h (.NAXISn ((n + 1) % 65536))).toOption)
      (List.range limit.toNat) (some 1)
  else some 0

/-- Rust's `as usize` cast of an `i64` (64-bit wrap-around to unsigned). -/
def toUsize (x : Int) : Nat := (x % (2 ^ 64 : Int)).toNat

/-- `Header::primary_data_array_size`:
`(BITPIX.unwrap_or(0).abs() * naxis_product) as usize` (in bits). -/
def primary_data_array_size (h : Header) : Option Nat :=
  (naxis_product h).map (fun p =>
    toUsize (|((integer_value_of h .BITPIX).toOption).getD 0| * p))

/-- `Header::extention_data_array_size` (spelling as in the source):
`(BITPIX.unwrap_or(0).abs() * GCOUNT.unwrap_or(1) * (PCOUNT.unwrap_or(0) +
naxis_product)) as usize` (in bits). -/
def extention_data_array_size (h : Header) : Option Nat :=
  (naxis_product h).map (fun p =>
    toUsize (|((integer_value_of h .BITPIX).toOption).getD 0| *
      (((integer_value_of h .GCOUNT).toOption).getD 1) *
      ((((integer_value_of h .PCOUNT).toOption).getD 0) + p)))

/-- The `lmle` helper of src/types/mod.rs: least multiple of `k` that is at
least `n`. -/
def lmle (n k : Nat) : Nat :=
  let q := n / k
  let r := n % k
  if r = 0 then q * k else (q + 1) * k

/-- `Header::data_array_size`: the primary or extension raw size, rounded up
with `lmle` to a whole multiple of `2880*8` (the size is in bits; `none`
models the panic inside `naxis_product`). -/
def data_array_size (h : Header) : Option Nat :=
  if is_primary h then
    (primary_data_array_size h).map (fun n => lmle n (2880 * 8))
  else
    (extention_data_array_size h).map (fun n => lmle n (2880 * 8))

/-- `is_allowed_in_character_string`: printable ASCII except the single
quote. -/
def isAllowedInCharacterString (b : Nat) : Bool :=
  32 ≤ b && b ≤ 126 && b ≠ 39

/-- `is_restricted_ascii`: printable ASCII. -/
def isRestrictedAscii (b : Nat) : Bool :=
  32 ≤ b && b ≤ 126

/-- `character_string` of parser/mod.rs:
`map!(map_res!(ws!(delimited!(tag!("'"), take_while!(is_allowed_in_character_string), tag!("'"))), from_utf8), CharacterString)`.
nom's `ws!`/`sep!` inserts the whitespace eater `sp` before every inner
parser and consumes trailing whitespace after the whole match; the chain
below is that expansion. -/
def character_string : Parser Value :=
  pmap
    (pmapRes
      (pbind sp (fun _ =>
       pbind (pTag [39]) (fun _ =>
       pbind sp (fun _ =>
       pbind (pTakeWhile isAllowedInCharacterString) (fun content =>
       pbind sp (fun _ =>
       pbind (pTag [39]) (fun _ =>
       pmap sp (fun _ => content))))))))
      utf8Decode)
    Value.CharacterString

/-- `logical_constant_from_str`. -/
def logical_constant_from_str (s : List Char) : Option Value :=
  if s = ['T'] then some (.Logical true)
  else if s = ['F'] then some (.Logical false)
  else none

/-- `logical_constant` of parser/mod.rs:
`map_res!(map_res!(ws!(alt!(tag!("T") | tag!("F"))), from_utf8), logical_constant_from_str)`
(with the `ws!` expansion made explicit as in `character_string`). -/
def logical_constant : Parser Value :=
  pmapRes
    (pmapRes
      (pbind
        (pAlt [pbind sp (fun _ => pTag [84]), pbind sp (fun _ => pTag [70])])
        (fun t => pmap sp (fun _ => t)))
      utf8Decode)
    logical_constant_from_str

/-- `integer` of parser/mod.rs:
`map!(map_res!(map_res!(ws!(take_while!(is_digit)), from_utf8), i64::from_str), Integer)`. -/
def integer : Parser Value :=
  pmap
    (pmapRes
      (pmapRes
        (pbind sp (fun _ =>
         pbind (pTakeWhile isDigitByte) (fun ds =>
         pmap sp (fun _ => ds))))
        utf8Decode)
      parseI64)
    Value.Integer

/-- `raw` of parser/mod.rs: `map!(map_res!(is_not!("/"), from_utf8), Raw)`. -/
def raw : Parser Value :=
  pmap (pmapRes (pIsNot (fun b => b = 47)) utf8Decode) Value.Raw

/-- `value` of parser/mod.rs:
`alt!(character_string | logical_constant | integer | raw)`. -/
def value : Parser Value :=
  pAlt [character_string, logical_constant, integer, raw]

/-- `undefined` of parser/mod.rs: `map!(take_while!(is_space), |_| Undefined)`
(defined in the source but not an alternative of `value`). -/
def undefined : Parser Value :=
  pmap (pTakeWhile isSpaceByte) (fun _ => Value.Undefined)

/-- `comment` of parser/mod.rs: a literal slash followed by a run of
printable ASCII. -/
def comment : Parser (List Char) :=
  pmapRes
    (pbind (pTag [47]) (fun _ => pTakeWhile isRestrictedAscii))
    utf8Decode

/-- `valuecomment` of parser/mod.rs:
`flat_map!(take!(70), pair!(value, opt!(comment)))`. -/
def valuecomment : Parser (Value × Option (List Char)) :=
  pFlatMap (pTake 70) (pPair value (pOpt comment))

/-- `keyword` of parser/mod.rs:
`map_res!(map_res!(take!(8), from_utf8), Keyword::from_str)`. -/
def keyword : Parser Keyword :=
  pmapRes (pmapRes (pTake 8) utf8Decode) (fun s => (Keyword.from_str s).toOption)

/-- `keyword_record` of parser/mod.rs: keyword, the literal `"= "`, then the
value/comment window. -/
def keyword_record : Parser KeywordRecord :=
  pbind keyword (fun key =>
  pbind (pTag [61, 32]) (fun _ =>
  pmap valuecomment (fun vc => KeywordRecord.mk key vc.1 vc.2)))

/-- `end_record` of parser/mod.rs:
`map!(flat_map!(take!(80), pair!(tag!("END"), many0!(tag!(" ")))), |_| END)`. -/
def end_record : Parser Keyword :=
  pmap
    (pFlatMap (pTake 80) (pPair (pTag [69, 78, 68]) (many0 (pTag [32]))))
    (fun _ => Keyword.END)

/-- `blank_record` of parser/mod.rs: `map!(count!(tag!(" "), 80), |_| BlankRecord)`
(the `BlankRecord` unit struct is modelled as `Unit`). -/
def blank_record : Parser Unit :=
  pmap (pCount (pTag [32]) 80) (fun _ => ())

/-- `primary_header` of parser/mod.rs: keyword records until the first END
record, then blank records (the result type is named `PrimaryHeader` in the
snapshot the parser was written against; see the header comment). -/
def primary_header : Parser Header :=
  pbind (many0 keyword_record) (fun records =>
  pbind end_record (fun _ =>
  pmap (many0 blank_record) (fun _ => Header.mk records)))

/-- The `END` marker record: `"END"` padded to 80 bytes with spaces. -/
def endRecordBytes : List Nat :=
  69 :: 78 :: 68 :: List.replicate 77 32

/-- `unsigned_number` of tests/nom-test.rs: nom's `digit` (one or more
decimal digits, erroring when the first byte is not a digit) through
`i64::from_str`. -/
def unsigned_number : Parser Int :=
  pmapRes
    (pmapRes
      (fun inp =>
        match inp with
        | [] => .incomplete
        | b :: _ =>
          if isDigitByte b then
            match spanBytes isDigitByte inp with
            | (m, r) => .done r m
          else .err)
      utf8Decode)
    parseI64

/-- `number` of tests/nom-test.rs: an optional sign tag before
`unsigned_number`; a leading minus negates the value. -/
def number : Parser Int :=
  pmap (pPair (pOpt (pAlt [pTag [43], pTag [45]])) unsigned_number)
    (fun sv =>
      (match sv.1 with
       | some s => if s.head? = some 45 then (-1 : Int) else 1
       | none => 1) * sv.2)

deriving instance DecidableEq for Except

/-- The decimal rendering of a natural number (what Rust's `format!("{}", n)`
produces for the index tests). -/
def decRender (n : Nat) : List Char := Nat.toDigits 10 n

/-- The primary header of the repository test
`primary_header_should_determine_correct_data_array_size`:
SIMPLE, BITPIX=8, NAXIS=2, NAXIS1=3, NAXIS2=5. -/
def exampleHeaderPrimary : Header :=
  ⟨[⟨.SIMPLE, .Logical true, none⟩,
    ⟨.BITPIX, .Integer 8, none⟩,
    ⟨.NAXIS, .Integer 2, none⟩,
    ⟨.NAXISn 1, .Integer 3, none⟩,
    ⟨.NAXISn 2, .Integer 5, none⟩,
    ⟨.END, .Undefined, none⟩]⟩

/-- The extension header of the repository test
`extension_header_should_determine_correct_data_array_size`:
XTENSION, BITPIX=128, NAXIS=2, NAXIS1=3, NAXIS2=5, GCOUNT=7, PCOUNT=11. -/
def exampleHeaderExtension : Header :=
  ⟨[⟨.XTENSION, .CharacterString "BINTABLE".toList, none⟩,
    ⟨.BITPIX, .Integer 128, none⟩,
    ⟨.NAXIS, .Integer 2, none⟩,
    ⟨.NAXISn 1, .Integer 3, none⟩,
    ⟨.NAXISn 2, .Integer 5, none⟩,
    ⟨.GCOUNT, .Integer 7, none⟩,
    ⟨.PCOUNT, .Integer 11, none⟩,
    ⟨.END, .Undefined, none⟩]⟩

/-- An inconsistent header: NAXIS=2 but no NAXIS2 record. -/
def exampleHeaderMissingNaxis : Header :=
  ⟨[⟨.SIMPLE, .Logical true, none⟩,
    ⟨.BITPIX, .Integer 8, none⟩,
    ⟨.NAXIS, .Integer 2, none⟩,
    ⟨.NAXISn 1, .Integer 3, none⟩,
    ⟨.END, .Undefined, none⟩]⟩

/-- The 70-byte value window holding `              2000.0` (then spaces). -/
def c3Window : List Nat := strBytes "              2000.0" ++ List.replicate 50 32

/-- A 70-byte value window of spaces only. -/
def spacesWindow : List Nat := List.replicate 70 32

/-- The 70-byte value window holding `                 -37` (then spaces). -/
def c8NegWindow : List Nat := strBytes "                 -37" ++ List.replicate 50 32

/-- The 70-byte value window holding `                 +37` (then spaces). -/
def c8PosWindow : List Nat := strBytes "                 +37" ++ List.replicate 50 32

/-- A 70-byte value window whose first byte is a slash. -/
def c10Window : List Nat := 47 :: List.replicate 69 32

/-- An 80-byte record whose keyword field is `END     ` but which carries a
`= ` separator and a slash-first value window. -/
def c10EndHeaderBytes : List Nat := strBytes "END     = " ++ c10Window

/-- A well-formed 80-byte keyword record `NAXIS   =                    2 /c`
padded with spaces. -/
def c6RecordBytes : List Nat :=
  strBytes "NAXIS   = " ++ strBytes "                   2 /c" ++ List.replicate 47 32

/-- The keyword record that `c6RecordBytes` parses to. -/
def c6Record : KeywordRecord :=
  ⟨.NAXIS, .Integer 2, some ('c' :: List.replicate 47 ' ')⟩

/-- An 80-byte blank record. -/
def blankRecordBytes : List Nat := List.replicate 80 32

theorem lmle_spec (n k : Nat) (hk : 0 < k) :
    k ∣ lmle n k ∧ n ≤ lmle n k ∧ lmle n k < n + k := by
  unfold lmle
  have hmod : n / k * k + n % k = n := Nat.div_add_mod' n k
  have hlt : n % k < k := Nat.mod_lt n hk
  by_cases h : n % k = 0
  · rw [if_pos h]
    rw [h, Nat.add_zero] at hmod
    refine ⟨dvd_mul_left k (n / k), ?_, ?_⟩
    · rw [hmod]
    · rw [hmod]
      exact Nat.lt_add_of_pos_right hk
  · rw [if_neg h]
    refine ⟨dvd_mul_left k (n / k + 1), ?_, ?_⟩
    · calc n = n / k * k + n % k := hmod.symm
        _ ≤ n / k * k + k := Nat.add_le_add_left (le_of_lt hlt) _
        _ = (n / k + 1) * k := by ring
    · calc (n / k + 1) * k = n / k * k + k := by ring
        _ < n / k * k + n % k + k :=
            Nat.add_lt_add_right
              (Nat.lt_add_of_pos_right (Nat.pos_of_ne_zero h)) _
        _ = n + k := by rw [hmod]

theorem toUsize_eq (x : Nat) (hlt : x < 2 ^ 64) : toUsize (x : Int) = x := by
  unfold toUsize
  rw [Int.emod_eq_of_lt (by positivity) (by exact_mod_cast hlt)]
  exact Int.toNat_natCast x

theorem naxisFold_cons (g : Nat → Option Int) (x : Nat) (xs : List Nat)
    (acc : Option Int) :
    naxisFold g (x :: xs) acc =
      naxisFold g xs (acc.bind (fun p => (g x).map (fun v => p * v))) := rfl

theorem naxisFold_none (g : Nat → Option Int) (l : List Nat) :
    naxisFold g l none = none := by
  induction l with
  | nil => rfl
  | cons x xs ih =>
    rw [naxisFold_cons]
    simpa using ih

theorem naxisFold_member_none (g : Nat → Option Int) (l : List Nat)
    (acc : Option Int) (n₀ : Nat) (hmem : n₀ ∈ l) (hm : g n₀ = none) :
    naxisFold g l acc = none := by
  induction l generalizing acc with
  | nil => cases hmem
  | cons x xs ih =>
    rw [naxisFold_cons]
    rcases List.mem_cons.mp hmem with h | h
    · subst h
      have hstep : (acc.bind fun p => (g n₀).map fun v => p * v) = none := by
        cases acc <;> simp [hm]
      rw [hstep]
      exact naxisFold_none g xs
    · exact ih _ h

theorem naxisFold_isSome (g : Nat → Option Int) (l : List Nat) (acc : Option Int)
    (hall : ∀ n ∈ l, (g n).isSome) (hacc : acc.isSome) :
    (naxisFold g l acc).isSome := by
  induction l generalizing acc with
  | nil => exact hacc
  | cons x xs ih =>
    rw [naxisFold_cons]
    refine ih _ (fun n hn => hall n (List.mem_cons_of_mem _ hn)) ?_
    obtain ⟨p, hp⟩ := Option.isSome_iff_exists.mp hacc
    obtain ⟨v, hv⟩ := Option.isSome_iff_exists.mp (hall x (List.mem_cons_self _ _))
    simp [hp, hv]

theorem findKeyword_eq_none (l : List (List Char × Keyword)) (s : List Char)
    (h : ∀ kv ∈ l, s ≠ kv.1) : findKeyword l s = none := by
  induction l with
  | nil => rfl
  | cons kv rest ih =>
    rw [findKeyword, if_neg (h kv (List.mem_cons_self _ _))]
    exact ih (fun x hx => h x (List.mem_cons_of_mem _ hx))

theorem trimRight_append_of_last (l d : List Char)
    (hd : rustIsWhitespace (d.reverse.headD ' ') = false) :
    trimRight (l ++ d) = l ++ d := by
  unfold trimRight
  cases hrev : d.reverse with
  | nil =>
    rw [hrev] at hd
    simp [rustIsWhitespace] at hd
  | cons c t =>
    rw [hrev] at hd
    simp only [List.headD_cons] at hd
    rw [List.reverse_append, hrev, List.cons_append, List.dropWhile_cons, hd]
    simp only [Bool.false_eq_true, if_false]
    rw [← List.cons_append, ← hrev, ← List.reverse_append, List.reverse_reverse]

theorem findKeyword_naxis (d : List Char) (hd : d ≠ []) :
    findKeyword keywordVocab ("NAXIS".toList ++ d) = none := by
  simp [findKeyword, keywordVocab, hd]

set_option maxRecDepth 100000 in
set_option maxHeartbeats 4000000 in
theorem decRenderFacts : ∀ n : Nat, n < 1000 → 1 ≤ n →
    (rustIsWhitespace ((decRender n).reverse.headD ' ') = false ∧
     parseU16 (decRender n) = some n) := by decide

theorem splitTake_append (l s : List Nat) : splitTake l.length (l ++ s) = some (l, s) := by
  induction l with
  | nil => rfl
  | cons b t ih => simp [splitTake, ih]

theorem tagGo_append (t l s : List Nat) (hlen : t.length ≤ l.length) :
    tagGo t (l ++ s) =
      match tagGo t l with
      | .done rest _ => .done (rest ++ s) ()
      | .err => .err
      | .incomplete => .incomplete := by
  induction t generalizing l with
  | nil => rfl
  | cons c ct ih =>
    cases l with
    | nil => simp at hlen
    | cons d dl =>
      simp only [List.cons_append, tagGo]
      by_cases hcd : c = d
      · rw [if_pos hcd, if_pos hcd]
        exact ih dl (by simpa using hlen)
      · rw [if_neg hcd, if_neg hcd]

theorem tagGo_done_drop (t l rest : List Nat) (u : Unit)
    (h : tagGo t l = .done rest u) : rest = l.drop t.length := by
  induction t generalizing l with
  | nil =>
    cases h
    rfl
  | cons c ct ih =>
    cases l with
    | nil => cases h
    | cons d dl =>
      by_cases hcd : c = d
      · rw [tagGo, if_pos hcd] at h
        simpa using ih dl h
      · rw [tagGo, if_neg hcd] at h
        cases h

theorem tagGo_err_of_take_ne (t l : List Nat) (hlen : t.length ≤ l.length)
    (hne : l.take t.length ≠ t) : tagGo t l = .err := by
  induction t generalizing l with
  | nil => simp at hne
  | cons c ct ih =>
    cases l with
    | nil => simp at hlen
    | cons d dl =>
      rw [tagGo]
      by_cases hcd : c = d
      · rw [if_pos hcd]
        refine ih dl (by simpa using hlen) ?_
        subst hcd
        simpa using hne
      · rw [if_neg hcd]

theorem many0Go_fuel {α : Type} (p : Parser α) :
    ∀ f g inp, inp.length < f → inp.length < g →
      many0Go p f inp = many0Go p g inp := by
  intro f
  induction f with
  | zero =>
    intro g inp hf _
    omega
  | succ f ih =>
    intro g inp hf hg
    cases g with
    | zero => omega
    | succ g =>
      simp only [many0Go]
      by_cases hinp : inp.isEmpty
      · rw [if_pos hinp, if_pos hinp]
      · rw [if_neg hinp, if_neg hinp]
        cases hp : p inp with
        | done rest a =>
          dsimp only
          by_cases hlt : rest.length < inp.length
          · rw [if_pos hlt, if_pos hlt, ih g rest (by omega) (by omega)]
          · rw [if_neg hlt, if_neg hlt]
        | err => rfl
        | incomplete => rfl

theorem many0_of_err {α : Type} (p : Parser α) (inp : List Nat)
    (hp : p inp = .err) : many0 p inp = .done inp [] := by
  unfold many0
  simp only [many0Go]
  by_cases hinp : inp.isEmpty = true
  · rw [if_pos hinp]
  · rw [if_neg hinp, hp]

theorem many0_nil {α : Type} (p : Parser α) : many0 p [] = .done [] [] := rfl

theorem many0_cons {α : Type} (p : Parser α) (r s : List Nat) (v : α)
    (hr : r ≠ []) (hp : p (r ++ s) = .done s v) :
    many0 p (r ++ s) =
      match many0 p s with
      | .done rest vs => .done rest (v :: vs)
      | .err => .err
      | .incomplete => .incomplete := by
  have hlen : s.length < (r ++ s).length := by
    cases r with
    | nil => exact absurd rfl hr
    | cons a t =>
      simp only [List.cons_append, List.length_cons, List.length_append]
      omega
  have hne : ¬(r ++ s).isEmpty = true := by
    cases r with
    | nil => exact absurd rfl hr
    | cons a t => simp
  conv_lhs => simp only [many0, many0Go]
  rw [if_neg hne, hp]
  dsimp only
  rw [if_pos hlen,
    many0Go_fuel p ((r ++ s).length) (s.length + 1) s hlen (by omega)]
  rfl

theorem splitTake_append_of_length (n : Nat) (l s : List Nat) (h : l.length = n) :
    splitTake n (l ++ s) = some (l, s) := by
  subst h
  exact splitTake_append l s

theorem keyword_record_append (r s : List Nat) (hr : r.length = 80) :
    keyword_record (r ++ s) =
      match keyword_record r with
      | .done _ v => .done s v
      | .err => .err
      | .incomplete => .incomplete := by
  have h8 : splitTake 8 (r ++ s) = some (r.take 8, r.drop 8 ++ s) := by
    have h := splitTake_append_of_length 8 (r.take 8) (r.drop 8 ++ s)
      (by rw [List.length_take, hr]; decide)
    rwa [← List.append_assoc, List.take_append_drop] at h
  have h8r : splitTake 8 r = some (r.take 8, r.drop 8) := by
    have h := splitTake_append_of_length 8 (r.take 8) (r.drop 8)
      (by rw [List.length_take, hr]; decide)
    rwa [List.take_append_drop] at h
  unfold keyword_record keyword valuecomment
  simp only [pbind, pmapRes, pmap, pTake, pTag, pFlatMap, pPair]
  rw [h8, h8r]
  dsimp only
  cases hu : utf8Decode (r.take 8) with
  | none => rfl
  | some cs =>
    dsimp only
    cases ht : (Keyword.from_str cs).toOption with
    | none => rfl
    | some key =>
      dsimp only
      rw [tagGo_append [61, 32] (r.drop 8) s (by rw [List.length_drop, hr]; decide)]
      cases htag : tagGo [61, 32] (r.drop 8) with
      | err => rfl
      | incomplete => rfl
      | done rest2 u =>
        dsimp only
        have hlen2 : rest2.length = 70 := by
          rw [tagGo_done_drop [61, 32] (r.drop 8) rest2 u htag]
          rw [List.length_drop, List.length_drop, hr]
          decide
        rw [splitTake_append_of_length 70 rest2 s hlen2]
        have h70 : splitTake 70 rest2 = some (rest2, []) := by
          have h := splitTake_append_of_length 70 rest2 [] hlen2
          rwa [List.append_nil] at h
        rw [h70]
        dsimp only
        cases hv : value rest2 with
        | err => rfl
        | incomplete => rfl
        | done restv av =>
          dsimp only
          cases ho : pOpt comment restv with
          | done resto ao => rfl
          | err => rfl
          | incomplete => rfl

theorem keyword_record_end (u : List Nat) :
    keyword_record (endRecordBytes ++ u) = .err := rfl

theorem end_record_append (u : List Nat) :
    end_record (endRecordBytes ++ u) = .done u Keyword.END := rfl

theorem many0_keyword_records (rs : List (List Nat)) (recs : List KeywordRecord)
    (t : List Nat)
    (hwf : List.Forall₂
      (fun r rec => r.length = 80 ∧ keyword_record r = .done [] rec) rs recs)
    (ht : keyword_record t = .err) :
    many0 keyword_record (rs.flatten ++ t) = .done t recs := by
  induction hwf with
  | nil => simpa using many0_of_err keyword_record t ht
  | @cons r rec rs' recs' hpair hrest ih =>
    obtain ⟨hlen, hrec⟩ := hpair
    have hne : r ≠ [] := by
      intro h
      rw [h] at hlen
      cases hlen
    have hp : keyword_record (r ++ (rs'.flatten ++ t)) = .done (rs'.flatten ++ t) rec := by
      rw [keyword_record_append r _ hlen, hrec]
    have hjoin : (r :: rs').flatten ++ t = r ++ (rs'.flatten ++ t) := by
      simp [List.flatten]
    rw [hjoin, many0_cons keyword_record r (rs'.flatten ++ t) rec hne hp, ih]

theorem pCount_space (n : Nat) (l X : List Nat) (hl : l.length = n) :
    pCount (pTag [32]) n (l ++ X) =
      if l.all (fun b => b = 32) then .done X (List.replicate n [32]) else .err := by
  induction n generalizing l with
  | zero =>
    have : l = [] := List.eq_nil_of_length_eq_zero hl
    subst this
    simp [pCount]
  | succ n ih =>
    cases l with
    | nil => cases hl
    | cons b bl =>
      simp only [pCount, pbind, pmap, List.cons_append, List.append_eq, pTag, tagGo]
      by_cases hb : (32 : Nat) = b
      · rw [if_pos hb]
        dsimp only
        rw [ih bl (by simpa using hl)]
        by_cases hall : bl.all (fun c => c = 32)
        · rw [if_pos hall, if_pos (by simp [hall, hb.symm])]
          rfl
        · rw [if_neg hall, if_neg (by simp [hall])]
      · rw [if_neg hb]
        rw [if_neg (by simp; intro h; exact absurd h.symm hb)]

theorem blank_record_append (b X : List Nat) (hb : b.length = 80) :
    blank_record (b ++ X) =
      if b.all (fun c => c = 32) then .done X () else .err := by
  unfold blank_record
  simp only [pmap]
  rw [pCount_space 80 b X hb]
  by_cases hall : b.all (fun c => c = 32)
  · rw [if_pos hall, if_pos hall]
  · rw [if_neg hall, if_neg hall]

theorem many0_blank_exists (t : List (List Nat)) (ht : ∀ b ∈ t, b.length = 80) :
    ∃ rest vs, many0 blank_record t.flatten = .done rest vs := by
  induction t with
  | nil => exact ⟨[], [], rfl⟩
  | cons b t' ih =>
    have hb : b.length = 80 := ht b (List.mem_cons_self _ _)
    have hne : b ≠ [] := by
      intro h
      rw [h] at hb
      cases hb
    have hjoin : (b :: t').flatten = b ++ t'.flatten := by simp [List.flatten]
    by_cases hall : b.all (fun c => c = 32)
    · have hp : blank_record (b ++ t'.flatten) = .done t'.flatten () := by
        rw [blank_record_append b t'.flatten hb, if_pos hall]
      obtain ⟨rest, vs, hrest⟩ := ih (fun x hx => ht x (List.mem_cons_of_mem _ hx))
      rw [hjoin, many0_cons blank_record b t'.flatten () hne hp, hrest]
      exact ⟨rest, () :: vs, rfl⟩
    · have hp : blank_record (b ++ t'.flatten) = .err := by
        rw [blank_record_append b t'.flatten hb, if_neg hall]
      rw [hjoin, many0_of_err blank_record _ hp]
      exact ⟨_, _, rfl⟩

theorem data_array_size_of_product_none (h : Header)
    (hp : naxis_product h = none) : data_array_size h = none := by
  unfold data_array_size primary_data_array_size extention_data_array_size
  rw [hp]
  by_cases hpr : is_primary h = true
  · rw [if_pos hpr]
    rfl
  · rw [if_neg hpr]
    rfl

/-- Claim C9: computing the data-array size of a header whose NAXIS is a
positive k while some NAXISn (n in 1..=k) has no integer value is a fatal
error (`none` models the panic of the `expect` inside `naxis_product`);
conversely, when every such NAXISn is present with an integer value the
failure branch is unreachable and `data_array_size` returns a size.  (The
`u16` cast on the loop index keeps the indices meaningful only for
NAXIS ≤ 65535, so both directions carry that bound.) -/
theorem fits_C9 :
    (∀ (h : Header) (n : Nat), 0 < naxisLimit h → naxisLimit h ≤ 65535 →
      1 ≤ n → (n : Int) ≤ naxisLimit h →
      (integer_value_of h (.NAXISn n)).toOption = none →
      data_array_size h = none) ∧
    (∀ h : Header, naxisLimit h ≤ 65535 →
      (∀ n : Nat, 1 ≤ n → (n : Int) ≤ naxisLimit h →
        ((integer_value_of h (.NAXISn n)).toOption).isSome) →
      ∃ s, data_array_size h = some s) := by
  constructor
  · intro h n hpos hle h1 hn hmiss
    refine data_array_size_of_product_none h ?_
    simp only [naxis_product]
    rw [if_pos hpos]
    refine naxisFold_member_none _ _ _ (n - 1) ?_ ?_
    · rw [List.mem_range]
      omega
    · have hn1 : n - 1 + 1 = n := Nat.succ_pred_eq_of_pos h1
      rw [hn1, Nat.mod_eq_of_lt (by omega)]
      exact hmiss
  · intro h hle hall
    have hprod : (naxis_product h).isSome := by
      by_cases hpos : 0 < naxisLimit h
      · simp only [naxis_product]
        rw [if_pos hpos]
        refine naxisFold_isSome _ _ _ ?_ rfl
        intro n hn
        rw [List.mem_range] at hn
        rw [Nat.mod_eq_of_lt (by omega)]
        exact hall (n + 1) (by omega) (by omega)
      · simp only [naxis_product]
        rw [if_neg hpos]
        rfl
    obtain ⟨p, hp⟩ := Option.isSome_iff_exists.mp hprod
    unfold data_array_size primary_data_array_size extention_data_array_size
    rw [hp]
    by_cases hpr : is_primary h = true
    · rw [if_pos hpr]
      exact ⟨_, rfl⟩
    · rw [if_neg hpr]
      exact ⟨_, rfl⟩

theorem fits_C9_witness :
    data_array_size exampleHeaderMissingNaxis = none ∧
    ∃ s, data_array_size exampleHeaderPrimary = some s := by
  constructor
  · exact fits_C9.1 exampleHeaderMissingNaxis 2 (by decide) (by decide) (by decide)
      (by decide) rfl
  · refine fits_C9.2 exampleHeaderPrimary (by decide) ?_
    intro n h1 hn
    have hL : naxisLimit exampleHeaderPrimary = 2 := rfl
    rw [hL] at hn
    have h2 : n ≤ 2 := by exact_mod_cast hn
    interval_cases n
    · rfl
    · rfl

/-- Claim C1 (corrected): for a header with a SIMPLE record the size returned
by `data_array_size` is `|BITPIX| * naxis_product` rounded up to the least
multiple of `2880*8` — measured in bits (one full 2880-byte block is
`2880*8 = 23040`), not in bytes as the claim words it. -/
theorem fits_C1 (h : Header) (p : Int) (raw : Nat)
    (hsimple : is_primary h = true)
    (hprod : naxis_product h = some p)
    (hraw : |((integer_value_of h .BITPIX).toOption).getD 0| * p = (raw : Int))
    (hlt : raw < 2 ^ 64) :
    data_array_size h = some (lmle raw (2880 * 8)) ∧
    2880 * 8 ∣ lmle raw (2880 * 8) ∧
    raw ≤ lmle raw (2880 * 8) ∧
    lmle raw (2880 * 8) < raw + 2880 * 8 ∧
    (raw = 0 → lmle raw (2880 * 8) = 0) := by
  obtain ⟨hdvd, hle, hltk⟩ := lmle_spec raw (2880 * 8) (by decide)
  refine ⟨?_, hdvd, hle, hltk, ?_⟩
  · unfold data_array_size primary_data_array_size
    rw [if_pos hsimple, hprod]
    simp only [Option.map_some']
    rw [hraw, toUsize_eq raw hlt]
  · intro h0
    subst h0
    decide

theorem fits_C1_witness :
    data_array_size exampleHeaderPrimary = some (lmle 120 (2880 * 8)) ∧
    2880 * 8 ∣ lmle 120 (2880 * 8) ∧
    120 ≤ lmle 120 (2880 * 8) ∧
    lmle 120 (2880 * 8) < 120 + 2880 * 8 ∧
    (120 = 0 → lmle 120 (2880 * 8) = 0) :=
  fits_C1 exampleHeaderPrimary 15 120 rfl rfl (by decide) (by decide)

/-- Counterexample to claim C1 as stated: on the header of the repository
test (BITPIX=8, NAXIS=2, NAXIS1=3, NAXIS2=5) `data_array_size` returns
23040 — one full block measured in bits — and not the byte count 2880 the
claim asserts. -/
theorem fits_C1_counterexample :
    data_array_size exampleHeaderPrimary = some 23040 ∧
    data_array_size exampleHeaderPrimary ≠ some 2880 := by
  exact ⟨by decide, by decide⟩

/-- Claim C2: for a header without a SIMPLE record the raw size in bits is
`|BITPIX| * GCOUNT * (PCOUNT + naxis_product)` with GCOUNT defaulting to 1
and PCOUNT to 0 when absent or not integer-valued, rounded up to the least
multiple of one full 2880-byte block (`2880*8` bits); `naxis_product` is 0
when NAXIS ≤ 0. -/
theorem fits_C2 (h : Header) (p : Int) (raw : Nat)
    (hext : is_primary h = false)
    (hprod : naxis_product h = some p)
    (hraw : |((integer_value_of h .BITPIX).toOption).getD 0| *
        (((integer_value_of h .GCOUNT).toOption).getD 1) *
        ((((integer_value_of h .PCOUNT).toOption).getD 0) + p) = (raw : Int))
    (hlt : raw < 2 ^ 64) :
    data_array_size h = some (lmle raw (2880 * 8)) ∧
    (naxisLimit h ≤ 0 → p = 0) ∧
    2880 * 8 ∣ lmle raw (2880 * 8) ∧
    raw ≤ lmle raw (2880 * 8) ∧
    lmle raw (2880 * 8) < raw + 2880 * 8 := by
  obtain ⟨hdvd, hle, hltk⟩ := lmle_spec raw (2880 * 8) (by decide)
  refine ⟨?_, ?_, hdvd, hle, hltk⟩
  · unfold data_array_size extention_data_array_size
    simp only [hext, Bool.false_eq_true, if_false]
    rw [hprod]
    simp only [Option.map_some']
    rw [hraw, toUsize_eq raw hlt]
  · intro hle0
    have hp := hprod
    simp only [naxis_product] at hp
    rw [if_neg (by omega)] at hp
    exact (Option.some.inj hp).symm

theorem fits_C2_witness :
    data_array_size exampleHeaderExtension = some (lmle 23296 (2880 * 8)) ∧
    (naxisLimit exampleHeaderExtension ≤ 0 → (15 : Int) = 0) ∧
    2880 * 8 ∣ lmle 23296 (2880 * 8) ∧
    23296 ≤ lmle 23296 (2880 * 8) ∧
    lmle 23296 (2880 * 8) < 23296 + 2880 * 8 :=
  fits_C2 exampleHeaderExtension 15 23296 rfl rfl (by decide) (by decide)

/-- Claim C3 (code bug): the value grammar of parser/mod.rs has no
real-number alternative (`alt!(character_string | logical_constant |
integer | raw)`), so the window `              2000.0 ` is parsed by the
integer alternative as `Integer(2000)` with `.0` left unconsumed — not as
`Real(2000.0)` as the specification (and the source's own
`TODO should be Real(2000.0f64)` comment) intend. -/
theorem fits_C3_eval :
    value c3Window =
      .done (strBytes ".0" ++ List.replicate 50 32) (.Integer 2000) := rfl

/-- Counterexample to claim C4 as stated: on the all-space 70-byte window
the value parser does not return `Undefined` (it returns `Incomplete`). -/
theorem fits_C4_counterexample :
    ¬ ∃ rest, value spacesWindow = .done rest Value.Undefined := by
  rintro ⟨rest, hr⟩
  rw [show value spacesWindow = .incomplete from rfl] at hr
  exact PResult.noConfusion hr

/-- Claim C4 (corrected): on the all-space window the character-string
alternative consumes every space looking for a quote and returns
`Incomplete`, which nom's `alt!` propagates, so `value` (and therefore the
whole `valuecomment` window parse) returns `Incomplete`; the `undefined`
parser, which would return `Undefined`, exists in the source but is not
among the alternatives of `value`. -/
theorem fits_C4 :
    value spacesWindow = .incomplete ∧
    valuecomment spacesWindow = .incomplete ∧
    undefined spacesWindow = .done [] Value.Undefined :=
  ⟨rfl, rfl, rfl⟩

/-- Claim C8 (code bug): the integer alternative of `value` is
`take_while!(is_digit)` with no sign handling (the source marks this with
`TODO negative numbers`), so the windows holding `-37` and `+37` fall
through to the `raw` fallback instead of parsing as integers; the intended
sign behaviour is demonstrated by the standalone `number` parser of
tests/nom-test.rs, which maps `-37` to -37 and `+37` to 37. -/
theorem fits_C8_eval :
    value c8NegWindow =
      .done [] (.Raw ("                 -37".toList ++ List.replicate 50 ' ')) ∧
    value c8PosWindow =
      .done [] (.Raw ("                 +37".toList ++ List.replicate 50 ' ')) ∧
    number (strBytes "-37") = .done [] (-37) ∧
    number (strBytes "+37") = .done [] 37 :=
  ⟨rfl, rfl, rfl, rfl⟩

/-- Claim C10 (corrected): a 70-byte value window beginning with a slash is
rejected by every alternative of `value` (the quoted string, logical and
integer alternatives mismatch and `is_not!("/")` refuses an empty match),
so the enclosing keyword record fails; the whole header parse then fails
as well — except when the record's first three bytes are `END`, in which
case `end_record` still consumes the record and the header parse can
succeed, which is the one amendment the code forces on the claim. -/
theorem fits_C10 :
    (∀ w : List Nat, w.head? = some 47 → value w = .err) ∧
    (∀ kw w rest : List Nat, kw.length = 8 → w.length = 70 →
      w.head? = some 47 →
      keyword_record (kw ++ 61 :: 32 :: (w ++ rest)) = .err) ∧
    (∀ kw w rest : List Nat, kw.length = 8 → w.length = 70 →
      w.head? = some 47 → kw.take 3 ≠ [69, 78, 68] →
      primary_header (kw ++ 61 :: 32 :: (w ++ rest)) = .err) := by
  have ha : ∀ w : List Nat, w.head? = some 47 → value w = .err := by
    intro w hw
    cases w with
    | nil => cases hw
    | cons b w' =>
      have hb : b = 47 := by
        simpa using hw
      subst hb
      rfl
  have hb : ∀ kw w rest : List Nat, kw.length = 8 → w.length = 70 →
      w.head? = some 47 →
      keyword_record (kw ++ 61 :: 32 :: (w ++ rest)) = .err := by
    intro kw w rest hkw hw hhead
    unfold keyword_record keyword valuecomment
    simp only [pbind, pmapRes, pmap, pTake, pTag, pFlatMap, pPair]
    rw [splitTake_append_of_length 8 kw _ hkw]
    dsimp only
    cases hu : utf8Decode kw with
    | none => rfl
    | some cs =>
      dsimp only
      cases ht : (Keyword.from_str cs).toOption with
      | none => rfl
      | some key =>
        dsimp only [tagGo]
        rw [if_pos rfl, if_pos rfl]
        dsimp only
        rw [splitTake_append_of_length 70 w rest hw]
        dsimp only
        rw [ha w hhead]
  refine ⟨ha, hb, ?_⟩
  intro kw w rest hkw hw hhead hne
  have hassoc : kw ++ 61 :: 32 :: (w ++ rest) = (kw ++ 61 :: 32 :: w) ++ rest := by
    simp
  have hlen80 : (kw ++ 61 :: 32 :: w).length = 80 := by
    simp [hkw, hw]
  unfold primary_header
  simp only [pbind, pmap]
  rw [many0_of_err keyword_record _ (hb kw w rest hkw hw hhead)]
  unfold end_record
  simp only [pmap, pFlatMap, pTake, pPair, pbind]
  rw [hassoc, splitTake_append_of_length 80 _ rest hlen80]
  dsimp only
  rw [show pTag [69, 78, 68] (kw ++ 61 :: 32 :: w) =
      (match tagGo [69, 78, 68] (kw ++ 61 :: 32 :: w) with
       | .done rest _ => PResult.done rest [69, 78, 68]
       | .err => .err
       | .incomplete => .incomplete) from rfl]
  rw [tagGo_err_of_take_ne [69, 78, 68] (kw ++ 61 :: 32 :: w)
    (by simp [hkw]; omega) ?_]
  · intro htake
    refine hne ?_
    rw [← htake]
    have h3 : (3 : Nat) ≤ kw.length := by omega
    show List.take 3 kw = List.take 3 (kw ++ 61 :: 32 :: w)
    rw [List.take_append_of_le_length h3]

theorem fits_C10_witness :
    value c10Window = .err ∧
    keyword_record (strBytes "KEY     " ++ 61 :: 32 :: (c10Window ++ [])) = .err ∧
    primary_header (strBytes "KEY     " ++ 61 :: 32 :: (c10Window ++ [])) = .err :=
  ⟨fits_C10.1 c10Window rfl,
   fits_C10.2.1 (strBytes "KEY     ") c10Window [] rfl rfl rfl,
   fits_C10.2.2 (strBytes "KEY     ") c10Window [] rfl rfl rfl (by decide)⟩

/-- Counterexample to the header-level consequence of claim C10 as stated:
the 80-byte record `END     = ` followed by a slash-first value window has
a failing keyword record, yet `primary_header` succeeds on it — the
`end_record` rule consumes any 80-byte record starting with `END`. -/
theorem fits_C10_counterexample :
    (c10EndHeaderBytes.drop 10).head? = some 47 ∧
    keyword_record c10EndHeaderBytes = .err ∧
    primary_header c10EndHeaderBytes = .done [] (Header.mk []) :=
  ⟨rfl, rfl, rfl⟩

/-- Claim C5: a keyword field whose trimmed text matches no word of the
fixed vocabulary and starts with none of the nine indexed-family prefixes
parses to the catch-all `Unprocessed` sentinel, never to an error. -/
theorem fits_C5 (s : List Char)
    (hvocab : ∀ kv ∈ keywordVocab, trimRight s ≠ kv.1)
    (hpfx : ∀ q ∈ familyPfxs, hasPfx (trimRight s) q = false) :
    Keyword.from_str s = .ok .Unprocessed := by
  have hfind : findKeyword keywordVocab (trimRight s) = none :=
    findKeyword_eq_none _ _ hvocab
  have h1 := hpfx "TDIM".toList (by simp [familyPfxs])
  have h2 := hpfx "TDISP".toList (by simp [familyPfxs])
  have h3 := hpfx "TFORM".toList (by simp [familyPfxs])
  have h4 := hpfx "NAXIS".toList (by simp [familyPfxs])
  have h5 := hpfx "TNULL".toList (by simp [familyPfxs])
  have h6 := hpfx "TSCAL".toList (by simp [familyPfxs])
  have h7 := hpfx "TTYPE".toList (by simp [familyPfxs])
  have h8 := hpfx "TUNIT".toList (by simp [familyPfxs])
  have h9 := hpfx "TZERO".toList (by simp [familyPfxs])
  simp only [Keyword.from_str]
  rw [hfind]
  simp only [h1, h2, h3, h4, h5, h6, h7, h8, h9, Bool.false_eq_true, if_false]

theorem fits_C5_witness :
    Keyword.from_str "FOOBAR  ".toList = .ok .Unprocessed :=
  fits_C5 "FOOBAR  ".toList (by decide) (by decide)

/-- Claim C7: for every n in 1..1000, the family prefix followed by the
decimal rendering of n parses to the corresponding indexed keyword variant
carrying index n, for all nine indexed families. -/
theorem fits_C7 : ∀ n : Nat, n < 1000 → 1 ≤ n →
    (Keyword.from_str ("NAXIS".toList ++ decRender n) = .ok (.NAXISn n) ∧
     Keyword.from_str ("TFORM".toList ++ decRender n) = .ok (.TFORMn n) ∧
     Keyword.from_str ("TTYPE".toList ++ decRender n) = .ok (.TTYPEn n) ∧
     Keyword.from_str ("TUNIT".toList ++ decRender n) = .ok (.TUNITn n) ∧
     Keyword.from_str ("TSCAL".toList ++ decRender n) = .ok (.TSCALn n) ∧
     Keyword.from_str ("TZERO".toList ++ decRender n) = .ok (.TZEROn n) ∧
     Keyword.from_str ("TNULL".toList ++ decRender n) = .ok (.TNULLn n) ∧
     Keyword.from_str ("TDIM".toList ++ decRender n) = .ok (.TDIMn n) ∧
     Keyword.from_str ("TDISP".toList ++ decRender n) = .ok (.TDISPn n)) := by
  intro n hlt hge
  obtain ⟨hws, hparse⟩ := decRenderFacts n hlt hge
  have hd0 : decRender n ≠ [] := by
    intro h
    rw [h] at hws
    simp [rustIsWhitespace] at hws
  refine ⟨?_, ?_, ?_, ?_, ?_, ?_, ?_, ?_, ?_⟩
  · simp only [Keyword.from_str]
    rw [trimRight_append_of_last _ _ hws, findKeyword_naxis _ hd0]
    show idxKw ("NAXIS".toList ++ decRender n) 5 .NAXISn = .ok (.NAXISn n)
    unfold idxKw
    rw [show ("NAXIS".toList ++ decRender n).drop 5 = decRender n from rfl, hparse]
  · simp only [Keyword.from_str]
    rw [trimRight_append_of_last _ _ hws]
    show idxKw ("TFORM".toList ++ decRender n) 5 .TFORMn = .ok (.TFORMn n)
    unfold idxKw
    rw [show ("TFORM".toList ++ decRender n).drop 5 = decRender n from rfl, hparse]
  · simp only [Keyword.from_str]
    rw [trimRight_append_of_last _ _ hws]
    show idxKw ("TTYPE".toList ++ decRender n) 5 .TTYPEn = .ok (.TTYPEn n)
    unfold idxKw
    rw [show ("TTYPE".toList ++ decRender n).drop 5 = decRender n from rfl, hparse]
  · simp only [Keyword.from_str]
    rw [trimRight_append_of_last _ _ hws]
    show idxKw ("TUNIT".toList ++ decRender n) 5 .TUNITn = .ok (.TUNITn n)
    unfold idxKw
    rw [show ("TUNIT".toList ++ decRender n).drop 5 = decRender n from rfl, hparse]
  · simp only [Keyword.from_str]
    rw [trimRight_append_of_last _ _ hws]
    show idxKw ("TSCAL".toList ++ decRender n) 5 .TSCALn = .ok (.TSCALn n)
    unfold idxKw
    rw [show ("TSCAL".toList ++ decRender n).drop 5 = decRender n from rfl, hparse]
  · simp only [Keyword.from_str]
    rw [trimRight_append_of_last _ _ hws]
    show idxKw ("TZERO".toList ++ decRender n) 5 .TZEROn = .ok (.TZEROn n)
    unfold idxKw
    rw [show ("TZERO".toList ++ decRender n).drop 5 = decRender n from rfl, hparse]
  · simp only [Keyword.from_str]
    rw [trimRight_append_of_last _ _ hws]
    show idxKw ("TNULL".toList ++ decRender n) 5 .TNULLn = .ok (.TNULLn n)
    unfold idxKw
    rw [show ("TNULL".toList ++ decRender n).drop 5 = decRender n from rfl, hparse]
  · simp only [Keyword.from_str]
    rw [trimRight_append_of_last _ _ hws]
    show idxKw ("TDIM".toList ++ decRender n) 4 .TDIMn = .ok (.TDIMn n)
    unfold idxKw
    rw [show ("TDIM".toList ++ decRender n).drop 4 = decRender n from rfl, hparse]
  · simp only [Keyword.from_str]
    rw [trimRight_append_of_last _ _ hws]
    show idxKw ("TDISP".toList ++ decRender n) 5 .TDISPn = .ok (.TDISPn n)
    unfold idxKw
    rw [show ("TDISP".toList ++ decRender n).drop 5 = decRender n from rfl, hparse]

theorem fits_C7_witness :
    Keyword.from_str ("NAXIS".toList ++ decRender 7) = .ok (.NAXISn 7) ∧
    Keyword.from_str ("TFORM".toList ++ decRender 7) = .ok (.TFORMn 7) ∧
    Keyword.from_str ("TTYPE".toList ++ decRender 7) = .ok (.TTYPEn 7) ∧
    Keyword.from_str ("TUNIT".toList ++ decRender 7) = .ok (.TUNITn 7) ∧
    Keyword.from_str ("TSCAL".toList ++ decRender 7) = .ok (.TSCALn 7) ∧
    Keyword.from_str ("TZERO".toList ++ decRender 7) = .ok (.TZEROn 7) ∧
    Keyword.from_str ("TNULL".toList ++ decRender 7) = .ok (.TNULLn 7) ∧
    Keyword.from_str ("TDIM".toList ++ decRender 7) = .ok (.TDIMn 7) ∧
    Keyword.from_str ("TDISP".toList ++ decRender 7) = .ok (.TDISPn 7) :=
  fits_C7 7 (by decide) (by decide)

/-- Claim C6: for N well-formed 80-byte keyword records followed by the END
marker record and then further 80-byte records, `primary_header` collects
exactly the N records before the first END and none after it; an END marker
record is never consumed as a keyword record (the `= ` separator is
missing, so `keyword_record` errors on it). -/
theorem fits_C6 (rs : List (List Nat)) (recs : List KeywordRecord)
    (t : List (List Nat))
    (hwf : List.Forall₂
      (fun r rec => r.length = 80 ∧ keyword_record r = .done [] rec) rs recs)
    (ht : ∀ b ∈ t, b.length = 80) :
    (∀ u, keyword_record (endRecordBytes ++ u) = .err) ∧
    ∃ rest, primary_header (rs.flatten ++ (endRecordBytes ++ t.flatten)) =
      .done rest (Header.mk recs) := by
  refine ⟨keyword_record_end, ?_⟩
  have hm : many0 keyword_record (rs.flatten ++ (endRecordBytes ++ t.flatten)) =
      .done (endRecordBytes ++ t.flatten) recs :=
    many0_keyword_records rs recs _ hwf (keyword_record_end _)
  unfold primary_header
  simp only [pbind, pmap]
  rw [hm]
  dsimp only
  rw [end_record_append]
  dsimp only
  obtain ⟨rest, vs, hblank⟩ := many0_blank_exists t ht
  rw [hblank]
  exact ⟨rest, rfl⟩

theorem fits_C6_witness :
    (∀ u, keyword_record (endRecordBytes ++ u) = .err) ∧
    ∃ rest, primary_header
        ([c6RecordBytes].flatten ++
          (endRecordBytes ++ [blankRecordBytes, c6RecordBytes].flatten)) =
      .done rest (Header.mk [c6Record]) :=
  fits_C6 [c6RecordBytes] [c6Record] [blankRecordBytes, c6RecordBytes]
    (List.Forall₂.cons ⟨by decide, rfl⟩ List.Forall₂.nil)
    (by
      intro b hb
      rcases List.mem_pair.mp hb with h | h <;> subst h <;> decide)
